import Mathlib

/-!
Verification development for the historical land-price reconciliation and
aggregation scripts of the repository (the kokudo land-price import pipeline
and the land-price collector).

Python strings are embedded as `List Char` (`Str`), so that every string
operation is a structural recursion the kernel can evaluate.  The relevant
source functions are translated one by one:

* `src/scripts/import_kokudo_all_years.py` —
  `normalize_address`, the price/land-area sanitising part of
  `extract_records`, `import_to_db` (the `INSERT ... ON CONFLICT DO UPDATE`
  upsert and its per-record try/except with `conn.rollback()`), and the
  per-year loop of `main`.
* `src/modules/data_aggregator/collectors/land_price_collector.py` —
  the `GROUP BY survey_year` aggregation query and the change-rate
  computations of `LandPriceCollector.fetch`.
* `src/scripts/archive/old_versions/20_import_historical_kokudo_data.py` —
  `extract_choume_name` and the matching loop of `match_with_choume`.
* `src/scripts/archive/old_versions/import_kokudo_multi_year.py` —
  `normalize_string`, `normalize_address`, `num_to_kanji`,
  `extract_choume_candidates`.
-/

/-- Python strings, embedded as lists of characters. -/
abbrev Str := List Char

/-- Python `str.strip()` on the left: drop leading whitespace. -/
def trimLeft (s : Str) : Str := s.dropWhile Char.isWhitespace

/-- Python `str.strip()`: drop leading and trailing whitespace. -/
def pyStrip (s : Str) : Str := ((trimLeft s).reverse.dropWhile Char.isWhitespace).reverse

/-- `str.maketrans('０１２３４５６７８９', '0123456789')` applied to one character:
full-width digits become ASCII digits, everything else is unchanged. -/
def zenToHanDigit (c : Char) : Char :=
  if '０' ≤ c ∧ c ≤ '９' then Char.ofNat (c.toNat - 0xFEE0) else c

/-- `address.translate(str.maketrans('０１２３４５６７８９', '0123456789'))`. -/
def transDigits (s : Str) : Str := s.map zenToHanDigit

/-- Python substring test `needle in hay` for strings (contiguous substring;
the empty needle is contained in everything). -/
def isSubstr (needle : Str) : Str → Bool
  | [] => needle.isEmpty
  | c :: rest => needle.isPrefixOf (c :: rest) || isSubstr needle rest

/-- `s.replace('丁目', '')`: delete every (left-to-right, non-overlapping)
occurrence of the two-character block-unit marker. -/
def stripChoumeMarker : Str → Str
  | '丁' :: '目' :: rest => stripChoumeMarker rest
  | c :: rest => c :: stripChoumeMarker rest
  | [] => []

/-- `s.replace('東京都', '')`. -/
def removeTokyo : Str → Str
  | '東' :: '京' :: '都' :: rest => removeTokyo rest
  | c :: rest => c :: removeTokyo rest
  | [] => []

/-- The part of `s` after the first occurrence of `'世田谷区'`, when the
occurrence exists (`'世田谷区' in s` and the start of `s.split('世田谷区')[1]`). -/
def afterSetagaya : Str → Option Str
  | '世' :: '田' :: '谷' :: '区' :: rest => some rest
  | _ :: rest => afterSetagaya rest
  | [] => none

/-- Truncate `s` before its first occurrence of `'世田谷区'` (no occurrence:
the whole string).  `afterSetagaya` followed by `beforeSetagaya` is exactly
Python's `s.split('世田谷区')[1]`, the segment between the first and the
second occurrence of the separator. -/
def beforeSetagaya : Str → Str
  | '世' :: '田' :: '谷' :: '区' :: _ => []
  | c :: rest => c :: beforeSetagaya rest
  | [] => []

/-- `s.split('世田谷区')[1]` when the separator occurs, `s` otherwise (the
source only takes the index when `'世田谷区' in s`). -/
def splitSetagayaSnd (s : Str) : Str :=
  match afterSetagaya s with
  | some rest => beforeSetagaya rest
  | none => s

/-- Split a string on the half-width hyphen, keeping empty segments, exactly
like `re.split(r'[-]', s)`. -/
def splitHyphen : Str → List Str
  | [] => [[]]
  | '-' :: rest => [] :: splitHyphen rest
  | c :: rest =>
    match splitHyphen rest with
    | [] => [[c]]
    | h :: t => (c :: h) :: t

/-! ### `normalize_address` of `src/scripts/import_kokudo_all_years.py` -/

/-- One character of the hyphen unification
`address.replace('－', '-').replace('−', '-').replace('‐', '-')`. -/
def unifyHyphenAY (c : Char) : Char :=
  if c = '－' ∨ c = '−' ∨ c = '‐' then '-' else c

/-- `normalize_address` (lines 42–75 of `import_kokudo_all_years.py`):
half-width digits, spaces removed, `東京都` removed, the part after
`世田谷区` taken, hyphen glyphs unified, a 3-part hyphen split rendered as
`<p0>丁目<p1>番<p2>` and a 2-part split as `<p0>番<p1>`, `外` removed,
then stripped. -/
def normalizeAddressAY (address : Str) : Str :=
  if address = [] then []
  else
    let a1 := transDigits address
    let a2 := a1.filter (fun c => ¬ (c = ' ' ∨ c = '　'))
    let a3 := removeTokyo a2
    let a4 := splitSetagayaSnd a3
    let a5 := a4.map unifyHyphenAY
    let parts := splitHyphen a5
    let a6 :=
      if parts.length = 3 then
        parts[0]! ++ ('丁' :: '目' :: parts[1]!) ++ ('番' :: parts[2]!)
      else if parts.length = 2 then
        parts[0]! ++ ('番' :: parts[1]!)
      else a5
    let a7 := a6.filter (fun c => ¬ c = '外')
    pyStrip a7

/-! ### The price and land-area sanitisers of `extract_records`
(lines 191–214 of `import_kokudo_all_years.py`) -/

/-- Parse `int(float(s))` for a plain decimal literal: optional surrounding
whitespace, optional sign, digits with an optional fractional part.  `int`
truncates toward zero, so the result is the signed integer part.  (The
embedding parses the decimal exactly; binary floating-point rounding of
`float` and exponent notation are outside the value range the scripts
process.) -/
def parsePyNumber (s : Str) : Option Int :=
  let t := pyStrip s
  let (neg, u) :=
    match t with
    | '-' :: rest => (true, rest)
    | '+' :: rest => (false, rest)
    | _ => (false, t)
  let intPart := u.takeWhile Char.isDigit
  let rest := u.dropWhile Char.isDigit
  let fracOk :=
    match rest with
    | [] => true
    | '.' :: fr => fr.all Char.isDigit && (intPart ≠ [] ∨ fr ≠ [])
    | _ => false
  if intPart = [] ∧ (rest = [] ∨ rest = ['.']) then none
  else if fracOk then
    let v : Int := Int.ofNat (intPart.foldl (fun n c => 10 * n + (c.toNat - '0'.toNat)) 0)
    some (if neg then -v else v)
  else none

/-- The raw value of one field of a row: `none` is a missing value
(`pd.isna`), `some s` is the value's string form `str(raw)`. -/
abbrev RawVal := Option Str

/-- The price block of `extract_records` (lines 191–204): sentinel strings
`''`, `'_'`, `'false'`, `'None'` give `None`; otherwise `int(float(...))`,
and a parsed value strictly below 10000 is multiplied by 100. -/
def sanitizePrice (priceRaw : RawVal) : Option Int :=
  match priceRaw with
  | none => none
  | some s =>
    if s = [] ∨ s = ['_'] ∨ s = ['f', 'a', 'l', 's', 'e'] ∨ s = ['N', 'o', 'n', 'e'] then none
    else
      match parsePyNumber s with
      | none => none
      | some v => some (if v < 10000 then v * 100 else v)

/-- The land-area block of `extract_records` (lines 206–214): sentinels
`''`, `'_'`, `'false'` give `None`, otherwise `int(float(...))`. -/
def sanitizeLandArea (raw : RawVal) : Option Int :=
  match raw with
  | none => none
  | some s =>
    if s = [] ∨ s = ['_'] ∨ s = ['f', 'a', 'l', 's', 'e'] then none
    else parsePyNumber s

/-! ### The `land_prices_kokudo` store: `create_table` and `import_to_db`
(lines 78–111 and 304–361 of `import_kokudo_all_years.py`) -/

/-- One row of the `land_prices_kokudo` table (equally: one record dict built
by `extract_records`; `import_to_db` inserts records with exactly these
columns).  `created_at` is the run day (`date.today()`); `latitude`,
`longitude` and `road_width` are numeric columns whose values are opaque to
every claim, kept as exact rationals. -/
structure KokudoRec where
  survey_year : Nat
  original_address : Str
  official_price : Option Int
  land_area : Option Int
  data_source : Str
  latitude : Option ℚ
  longitude : Option ℚ
  created_at : Nat
  land_use : Option Str
  building_coverage_ratio : Option Int
  floor_area_ratio : Option Int
  road_direction : Option Str
  road_width : Option ℚ
  nearest_station : Option Str
  station_distance : Option Int
deriving DecidableEq, Repr

/-- The natural key of the store: `UNIQUE(survey_year, original_address)`
from `create_table`.  The block code is not part of any key. -/
def rowKey (r : KokudoRec) : Nat × Str := (r.survey_year, r.original_address)

/-- The `ON CONFLICT (survey_year, original_address) DO UPDATE SET` part of
the upsert: the conflicting stored row `x` keeps its key, `data_source`,
`latitude`, `longitude` and `created_at`, and takes the excluded row `r`'s
values for exactly the nine columns listed in the SET clause. -/
def updateRow (x r : KokudoRec) : KokudoRec :=
  { x with
    official_price := r.official_price
    land_area := r.land_area
    land_use := r.land_use
    building_coverage_ratio := r.building_coverage_ratio
    floor_area_ratio := r.floor_area_ratio
    road_direction := r.road_direction
    road_width := r.road_width
    nearest_station := r.nearest_station
    station_distance := r.station_distance }

/-- Whether the store holds a row with the given natural key. -/
def keyMem (s : List KokudoRec) (k : Nat × Str) : Bool :=
  s.any (fun x => decide (rowKey x = k))

/-- One `cur.execute(insert_sql, record)`: insert the record, or on a key
conflict update the stored row per the SET clause. -/
def applyRec (s : List KokudoRec) (r : KokudoRec) : List KokudoRec :=
  if keyMem s (rowKey r) then
    s.map (fun x => if rowKey x = rowKey r then updateRow x r else x)
  else s ++ [r]

/-- `import_to_db` on an error-free batch: each record upserted in order,
then `conn.commit()`. -/
def importToDb (s : List KokudoRec) (records : List KokudoRec) : List KokudoRec :=
  records.foldl applyRec s

/-- `import_to_db` with the transaction made explicit.  `committed` is the
table as of the last commit.  Each batch element carries a flag: `true`
means `cur.execute` raises for that record, upon which the code prints the
error, increments `error_count` and calls `conn.rollback()` — discarding
every uncommitted change of the current transaction, i.e. resetting the
pending state to `committed`.  A non-raising record is applied to the
pending state and counted in `success_count`.  The final `conn.commit()`
makes the pending state the new table.  Returns
(committed table, success_count, error_count). -/
def importToDbTxGo (committed : List KokudoRec) :
    List KokudoRec → Nat → Nat → List (Bool × KokudoRec) → List KokudoRec × Nat × Nat
  | pending, succ, err, [] => (pending, succ, err)
  | _, succ, err, (true, _) :: rest => importToDbTxGo committed committed succ (err + 1) rest
  | pending, succ, err, (false, r) :: rest =>
      importToDbTxGo committed (applyRec pending r) (succ + 1) err rest

/-- `import_to_db` under the transactional model (see `importToDbTxGo`). -/
def importToDbTx (committed : List KokudoRec) (batch : List (Bool × KokudoRec)) :
    List KokudoRec × Nat × Nat :=
  importToDbTxGo committed committed 0 0 batch

/-! ### `extract_records` (lines 177–301 of `import_kokudo_all_years.py`) -/

/-- The fields `extract_records` reads from one raw GeoDataFrame row.  The
address, price and land-area fields carry their raw string forms.  The
geometry-derived centroid is carried as the already-computed optional
coordinates, and the year-2018-onward attribute fields as the already-parsed
optional values: their per-field sentinel parsing (source lines 241–293)
is uniform bookkeeping no claim depends on. -/
structure RawRow where
  address_raw : RawVal
  price_raw : RawVal
  land_area_raw : RawVal
  latitude : Option ℚ
  longitude : Option ℚ
  land_use : Option Str
  building_coverage_ratio : Option Int
  floor_area_ratio : Option Int
  road_direction : Option Str
  road_width : Option ℚ
  nearest_station : Option Str
  station_distance : Option Int
deriving DecidableEq, Repr

/-- One iteration of the `extract_records` loop body on a row that does not
raise: skip the row when the address is missing or empty, otherwise build
the record dict (with the attribute fields only for `year >= 2018`;
for earlier years `import_to_db`'s `setdefault` leaves them `None`). -/
def extractRecord (year : Nat) (today : Nat) (r : RawRow) : Option KokudoRec :=
  match r.address_raw with
  | none => none
  | some a =>
    if a = [] then none
    else
      some
        { survey_year := year
          original_address := normalizeAddressAY a
          official_price := sanitizePrice r.price_raw
          land_area := sanitizeLandArea r.land_area_raw
          data_source := ['地', '価', '公', '示']
          latitude := r.latitude
          longitude := r.longitude
          created_at := today
          land_use := if 2018 ≤ year then r.land_use else none
          building_coverage_ratio := if 2018 ≤ year then r.building_coverage_ratio else none
          floor_area_ratio := if 2018 ≤ year then r.floor_area_ratio else none
          road_direction := if 2018 ≤ year then r.road_direction else none
          road_width := if 2018 ≤ year then r.road_width else none
          nearest_station := if 2018 ≤ year then r.nearest_station else none
          station_distance := if 2018 ≤ year then r.station_distance else none }

/-- A row fed to `extract_records`: either a row whose processing raises an
exception (caught by the per-row `try/except`, which prints a warning and
continues) or a well-formed raw row. -/
inductive RowInput where
  | raises
  | good (r : RawRow)
deriving DecidableEq, Repr

/-- `extract_records`: the records list accumulated over all rows; raising
rows and rows with a missing/empty address are skipped, all other rows are
kept, in order. -/
def extractRecords (year : Nat) (today : Nat) (rows : List RowInput) : List KokudoRec :=
  rows.filterMap (fun ri =>
    match ri with
    | RowInput.raises => none
    | RowInput.good r => extractRecord year today r)

/-! ### The per-year loop of `main` (lines 479–532 of
`import_kokudo_all_years.py`) -/

/-- The outcome of preparing one year inside the `try` of the year loop:
the file is missing (warned, year marked failed), the ward filter is empty
(warned, year marked failed), an exception is raised anywhere in the body
(caught, traceback printed, year marked failed), or the year's raw rows are
read successfully. -/
inductive YearJob where
  | fileMissing
  | noWardRows
  | raises
  | ok (rows : List RowInput)
deriving DecidableEq, Repr

/-- The running state of the multi-year loop: the store, the `success_years`
and `failed_years` lists and `total_imported`. -/
structure RunSummary where
  store : List KokudoRec
  success_years : List Nat
  failed_years : List Nat
  total_imported : Nat
deriving DecidableEq, Repr

/-- One iteration of the year loop of `main`: a failed year is appended to
`failed_years` and the loop continues; a successful year extracts its
records, imports them (error-free import: every record counts as a
success), and is appended to `success_years`. -/
def runYearStep (today : Nat) (st : RunSummary) (job : Nat × YearJob) : RunSummary :=
  match job.2 with
  | YearJob.fileMissing => { st with failed_years := st.failed_years ++ [job.1] }
  | YearJob.noWardRows => { st with failed_years := st.failed_years ++ [job.1] }
  | YearJob.raises => { st with failed_years := st.failed_years ++ [job.1] }
  | YearJob.ok rows =>
    let records := extractRecords job.1 today rows
    { st with
      store := importToDb st.store records
      success_years := st.success_years ++ [job.1]
      total_imported := st.total_imported + records.length }

/-- The year loop of `main` over a list of (year, outcome) jobs. -/
def runYears (today : Nat) (st : RunSummary) (jobs : List (Nat × YearJob)) : RunSummary :=
  jobs.foldl (runYearStep today) st

/-! ### `LandPriceCollector.fetch`
(`src/modules/data_aggregator/collectors/land_price_collector.py`) -/

/-- The columns of `land_prices_kokudo` that the aggregation query of
`fetch` reads. -/
structure StoredPoint where
  survey_year : Nat
  official_price : Option Int
  original_address : Str
deriving DecidableEq, Repr

/-- PostgreSQL `AVG(int)::INTEGER` for a non-empty group: the exact rational
mean of the non-null values, rounded to the nearest integer with ties away
from zero (the `numeric → integer` cast).  `s` is the sum, `n` the number of
summed values. -/
def pgAvgInt (s : Int) (n : Nat) : Int :=
  if 0 ≤ s then ((2 * s.toNat + n) / (2 * n) : Nat)
  else -(((2 * (-s).toNat + n) / (2 * n) : Nat) : Int)

/-- SQL `MIN` over the non-null values of a group (`none` when there are
none). -/
def sqlMinInt : List Int → Option Int
  | [] => none
  | p :: rest =>
    match sqlMinInt rest with
    | none => some p
    | some m => some (min p m)

/-- SQL `MAX` over the non-null values of a group. -/
def sqlMaxInt : List Int → Option Int
  | [] => none
  | p :: rest =>
    match sqlMaxInt rest with
    | none => some p
    | some m => some (max p m)

/-- SQL `AVG(...)::INTEGER` over the non-null values of a group. -/
def sqlAvgInt (ps : List Int) : Option Int :=
  if ps = [] then none else some (pgAvgInt ps.sum ps.length)

/-- One output row of the aggregation query of `fetch`: `survey_year`,
`COUNT(*)`, `AVG(official_price)::INTEGER`, `MIN(official_price)`,
`MAX(official_price)`.  (The `MAX(CASE WHEN attr IS NOT NULL ...)` attribute
columns and the `MIN(original_address)` sample address do not bear on any
claim and are not modelled.) -/
structure AggYearRow where
  survey_year : Nat
  point_count : Nat
  avg_price : Option Int
  min_price : Option Int
  max_price : Option Int
deriving DecidableEq, Repr

/-- The search pattern construction of `fetch` (lines 79–88): full-width
digits of the block name to half-width, the trailing digit run removed
(`re.sub(r'\d+$', '', ...)`); the SQL pattern is this base followed by `%`. -/
def searchBase (choume : Str) : Str :=
  ((transDigits choume).reverse.dropWhile Char.isDigit).reverse

/-- The `WHERE TRANSLATE(original_address, ...) LIKE '<base>%'` filter:
the digit-translated address starts with the base. -/
def likeFilter (base : Str) (p : StoredPoint) : Bool :=
  base.isPrefixOf (transDigits p.original_address)

/-- Insert a year into an ascending list (used to model `ORDER BY
survey_year` over the distinct group keys). -/
def insertAsc (y : Nat) : List Nat → List Nat
  | [] => [y]
  | z :: rest => if y ≤ z then y :: z :: rest else z :: insertAsc y rest

/-- The distinct survey years of the filtered points, ascending. -/
def sortedYears (pts : List StoredPoint) : List Nat :=
  ((pts.map (fun p => p.survey_year)).dedup).foldr insertAsc []

/-- The aggregation row of one `GROUP BY survey_year` group. -/
def aggRowOf (pts : List StoredPoint) (y : Nat) : AggYearRow :=
  let g := pts.filter (fun p => decide (p.survey_year = y))
  let ps := g.filterMap (fun p => p.official_price)
  { survey_year := y
    point_count := g.length
    avg_price := sqlAvgInt ps
    min_price := sqlMinInt ps
    max_price := sqlMaxInt ps }

/-- The full result set of the aggregation query of `fetch` for one block
pattern: filter by the LIKE pattern, group by survey year, aggregate, order
by year. -/
def landPriceAggRows (store : List StoredPoint) (choume : Str) : List AggYearRow :=
  let pts := store.filter (likeFilter (searchBase choume))
  (sortedYears pts).map (aggRowOf pts)

/-! #### The change-rate computations of `fetch` (lines 123–160) -/

/-- The change-rate step shared by every horizon:
`((curr - prev) / prev) * 100 if prev and prev > 0 else 0.0`.
`prev` of `None` or `0` is falsy and `prev > 0` guards the rest, so the
change stays the numeric `0.0` unless `prev` is a positive number; when the
guard passes and `curr` is `None`, the subtraction `None - int` raises a
`TypeError`, which the enclosing `try` of `fetch` turns into an empty result
(modelled as the error case). -/
def changeRate (prev curr : Option Int) : Except Unit ℚ :=
  match prev with
  | none => Except.ok 0
  | some p =>
    if 0 < p then
      match curr with
      | some c => Except.ok (((c : ℚ) - (p : ℚ)) / (p : ℚ) * 100)
      | none => Except.error ()
    else Except.ok 0

/-- The per-row `change` values of the `history` list: `0.0` for the first
row, and for each later row the change against the immediately preceding
row's average. -/
def histChangesGo (prevAvg : Option Int) : List AggYearRow → Except Unit (List ℚ)
  | [] => Except.ok []
  | r :: rest => do
    let c ← changeRate prevAvg r.avg_price
    let tail ← histChangesGo r.avg_price rest
    Except.ok (c :: tail)

/-- The `change` column of the `history` list built by `fetch`. -/
def histChanges : List AggYearRow → Except Unit (List ℚ)
  | [] => Except.ok []
  | r :: rest => do
    let tail ← histChangesGo r.avg_price rest
    Except.ok (0 :: tail)

/-- All change rates computed by `fetch` from the ordered aggregation rows:
the per-row history changes, `price_change_26y` (against the oldest row),
`price_change_5y` (against `rows[-5]`, only when at least 5 rows exist,
else `0.0`) and `price_change_1y` (against `rows[-2]`, only when at least
2 rows exist, else `0.0`).  `none` models `fetch` returning `{}`: either
the row set was empty or a change computation raised. -/
def fetchChangeRates (rows : List AggYearRow) : Option (List ℚ × ℚ × ℚ × ℚ) :=
  match rows.head?, rows.getLast? with
  | some oldest, some latest =>
    match histChanges rows with
    | Except.error _ => none
    | Except.ok hist =>
      match changeRate oldest.avg_price latest.avg_price with
      | Except.error _ => none
      | Except.ok c26 =>
        match (if 5 ≤ rows.length then
                 match rows.get? (rows.length - 5) with
                 | some r5 => changeRate r5.avg_price latest.avg_price
                 | none => Except.error ()
               else Except.ok 0) with
        | Except.error _ => none
        | Except.ok c5 =>
          match (if 2 ≤ rows.length then
                   match rows.get? (rows.length - 2) with
                   | some r1 => changeRate r1.avg_price latest.avg_price
                   | none => Except.error ()
                 else Except.ok 0) with
          | Except.error _ => none
          | Except.ok c1 => some (hist, c26, c5, c1)
  | _, _ => none

/-! ### `extract_choume_name` and `match_with_choume`
(`src/scripts/archive/old_versions/20_import_historical_kokudo_data.py`) -/

/-- The search for `^(.+?)(\d+)<terminator>`: a lazy non-empty prefix, a
greedy digit run, then a terminator recognised by `isTerm` on the remaining
characters.  Because every terminator in the source patterns starts with a
non-digit, the digit run of a successful match is exactly the maximal digit
run at the split position, and the engine advances the split one character
at a time — which is precisely this loop.  Returns (group 1, group 2). -/
def patSearchGo (isTerm : Str → Bool) (pre : Str) : Str → Option (Str × Str)
  | [] => none
  | c :: rest =>
    if c.isDigit then
      let ds := (c :: rest).takeWhile Char.isDigit
      let after := (c :: rest).dropWhile Char.isDigit
      if isTerm after then some (pre, ds) else patSearchGo isTerm (pre ++ [c]) rest
    else patSearchGo isTerm (pre ++ [c]) rest

/-- `re.search(r'^(.+?)(\d+)<terminator>', s)`; the `.+?` group must be
non-empty, so scanning starts after the first character. -/
def patSearch (isTerm : Str → Bool) : Str → Option (Str × Str)
  | [] => none
  | c :: rest => patSearchGo isTerm [c] rest

/-- Terminator `丁目` (patterns `... \d+丁目`). -/
def termChoume : Str → Bool
  | '丁' :: '目' :: _ => true
  | _ => false

/-- Terminator class `[-−ー]` of pattern 2 of `extract_choume_name`. -/
def termHyphen3 : Str → Bool
  | c :: _ => c = '-' ∨ c = '−' ∨ c = 'ー'
  | [] => false

/-- Terminator `番` of pattern 3 of `extract_choume_name`. -/
def termBan : Str → Bool
  | c :: _ => c = '番'
  | [] => false

/-- `extract_choume_name` (lines 311–366): full-width digits to half-width,
`−` and `ー` to `-`, the part after `世田谷区` taken; then the first of the
three patterns that matches produces `<area.strip()><digits>丁目` (pattern 3
keeps only the first digit of the run). -/
def extractChoumeName (address : Str) : Option Str :=
  if address = [] then none
  else
    let a1 := (transDigits address).map (fun c => if c = '−' ∨ c = 'ー' then '-' else c)
    let a2 := splitSetagayaSnd a1
    match patSearch termChoume a2 with
    | some (area, num) => some (pyStrip area ++ num ++ ['丁', '目'])
    | none =>
      match patSearch termHyphen3 a2 with
      | some (area, num) => some (pyStrip area ++ num ++ ['丁', '目'])
      | none =>
        match patSearch termBan a2 with
        | some (area, d :: _) => some (pyStrip area ++ [d] ++ ['丁', '目'])
        | _ => none

/-- One insertion into a Python dict literal comprehension: an existing key
has its value replaced in place, a new key is appended (Python dicts keep
first-insertion order for keys and the last value assigned). -/
def pyDictIns (d : List (Str × Str)) (k v : Str) : List (Str × Str) :=
  if (d.find? (fun p => decide (p.1 = k))).isSome then
    d.map (fun p => if p.1 = k then (k, v) else p)
  else d ++ [(k, v)]

/-- `choume_dict = {row[1]: row[0] for row in choume_records}`: the
name-to-code dict built from the catalog rows (in `ORDER BY choume_code`
order), as an association list in dict iteration order. -/
def buildChoumeDict (records : List (Str × Str)) : List (Str × Str) :=
  records.foldl (fun d p => pyDictIns d p.1 p.2) []

/-- `choume_dict.get(matched_code, '')`: look the key up in the
name-to-code dict, defaulting to the empty string.  (The source passes a
*code* as the key of this *name*-keyed dict, so for any catalog whose codes
are not also names this returns `''`.) -/
def choumeDictGet (d : List (Str × Str)) (k : Str) : Str :=
  match d.find? (fun p => decide (p.1 = k)) with
  | some p => p.2
  | none => []

/-- The matching loop of `match_with_choume` (lines 603–623) over the dict
entries `(db_name, db_code)`, carrying the current `(matched_code,
matched_name)`.  Per entry: exact equality of the marker-stripped names
ends the loop; a candidate contained in the catalog name replaces the
current match when there is none yet or when
`len(db_name-stripped) > len(choume_dict.get(matched_code, '')-stripped)`
(the buggy comparison from the source, kept verbatim); a catalog name
contained in the candidate ends the loop. -/
def matchChoumeLoop (d : List (Str × Str)) (nex : Str) :
    Option (Str × Str) → List (Str × Str) → Option (Str × Str)
  | matched, [] => matched
  | matched, (dbName, dbCode) :: rest =>
    let ndb := pyStrip (stripChoumeMarker dbName)
    if nex = ndb then some (dbCode, dbName)
    else if nex ≠ [] ∧ isSubstr nex ndb then
      if matched.elim true
          (fun mcn => decide ((stripChoumeMarker (choumeDictGet d mcn.1)).length < ndb.length)) then
        matchChoumeLoop d nex (some (dbCode, dbName)) rest
      else matchChoumeLoop d nex matched rest
    else if ndb ≠ [] ∧ isSubstr ndb nex then some (dbCode, dbName)
    else matchChoumeLoop d nex matched rest

/-- The full matching step of `match_with_choume` (lines 592–623) for one
extracted name: an exact dict-key hit wins outright, otherwise the loop
over all entries with the marker-stripped extracted name.  Returns
`(matched_code, matched_name)` or `none`. -/
def matchChoume (d : List (Str × Str)) (extracted : Str) : Option (Str × Str) :=
  match d.find? (fun p => decide (p.1 = extracted)) with
  | some p => some (p.2, extracted)
  | none => matchChoumeLoop d (pyStrip (stripChoumeMarker extracted)) none d

/-- The fields of one raw row that the record loop of `match_with_choume`
(lines 577–676) reads: the address string (`'nan'` is the string form of a
missing value), the survey year as already converted by `int(...)` (`none`
when the conversion raises, which the per-record `try` turns into a skip),
and the raw price string. -/
structure HistRow where
  address : Str
  survey_year : Option Nat
  price_raw : Str
deriving DecidableEq, Repr

/-- One entry of `matched_records` (the `land_area` and coordinate fields
carry no weight in any claim and are not modelled). -/
structure MatchedRec where
  choume_code : Str
  choume_name : Str
  survey_year : Nat
  official_price : Nat
  original_address : Str
deriving DecidableEq, Repr

/-- `price_str.replace('_', '').strip()` followed by
`int(price_str) if price_str and price_str.isdigit() else None`. -/
def parseHistPrice (s : Str) : Option Nat :=
  let t := pyStrip (s.filter (fun c => ¬ c = '_'))
  if t ≠ [] ∧ t.all Char.isDigit then
    some (t.foldl (fun n c => 10 * n + (c.toNat - '0'.toNat)) 0)
  else none

/-- The body of the record loop of `match_with_choume` for one row: skip on
empty/`nan` address, failed name extraction, no catalog match, failed year
conversion or invalid price; otherwise produce the matched record. -/
def processHistRow (d : List (Str × Str)) (r : HistRow) : Option MatchedRec :=
  if r.address = [] ∨ r.address = ['n', 'a', 'n'] then none
  else
    match extractChoumeName r.address with
    | none => none
    | some nm =>
      match matchChoume d nm with
      | none => none
      | some (code, name) =>
        match r.survey_year with
        | none => none
        | some sy =>
          match parseHistPrice r.price_raw with
          | none => none
          | some p =>
            some
              { choume_code := code
                choume_name := name
                survey_year := sy
                official_price := p
                original_address := r.address }

/-- `match_with_choume` over all rows: the `matched_records` list; every
skipped row only increments `skipped_count`. -/
def matchWithChoumeRecords (d : List (Str × Str)) (rows : List HistRow) : List MatchedRec :=
  rows.filterMap (processHistRow d)

/-! ### `extract_choume_candidates`
(`src/scripts/archive/old_versions/import_kokudo_multi_year.py`) -/

/-- `normalize_string`: full-width alphanumerics to half-width, spaces
removed. -/
def zenToHanAlnum (c : Char) : Char :=
  if ('０' ≤ c ∧ c ≤ '９') ∨ ('Ａ' ≤ c ∧ c ≤ 'Ｚ') ∨ ('ａ' ≤ c ∧ c ≤ 'ｚ') then
    Char.ofNat (c.toNat - 0xFEE0)
  else c

/-- `normalize_string` of `import_kokudo_multi_year.py` (lines 53–60). -/
def normalizeStringMY (s : Str) : Str :=
  (s.map zenToHanAlnum).filter (fun c => ¬ (c = ' ' ∨ c = '　'))

/-- `s.replace('大字', '')`. -/
def removeOoaza : Str → Str
  | '大' :: '字' :: rest => removeOoaza rest
  | c :: rest => c :: removeOoaza rest
  | [] => []

/-- `normalize_address` of `import_kokudo_multi_year.py` (lines 62–72):
`normalize_string`, the stripped part after `世田谷区` when present, then
`大字` and `字` removed. -/
def normalizeAddressMY (address : Str) : Str :=
  let a1 := normalizeStringMY address
  let a2 :=
    match afterSetagaya a1 with
    | some rest => pyStrip (beforeSetagaya rest)
    | none => a1
  (removeOoaza a2).filter (fun c => ¬ c = '字')

/-- `REV_KANJI_NUM_MAP.get(char, char)`: an ASCII digit 1–9 becomes its
kanji numeral, every other character is unchanged. -/
def revKanjiChar (c : Char) : Char :=
  if c = '1' then '一' else if c = '2' then '二' else if c = '3' then '三'
  else if c = '4' then '四' else if c = '5' then '五' else if c = '6' then '六'
  else if c = '7' then '七' else if c = '8' then '八' else if c = '9' then '九'
  else c

/-- `num_to_kanji` (lines 74–79). -/
def numToKanji (s : Str) : Str := s.map revKanjiChar

/-- Terminator `-` of pattern 2 of `extract_choume_candidates` (the hyphen
class was already unified to `-` by the preceding `re.sub`). -/
def termHyphen1 : Str → Bool
  | c :: _ => c = '-'
  | [] => false

/-- `re.search(r'^(\D+)', s)`: the leading non-digit run, when non-empty. -/
def leadingNonDigits (s : Str) : Option Str :=
  let l := s.takeWhile (fun c => ¬ c.isDigit)
  if l = [] then none else some l

/-- The candidates of `extract_choume_candidates` (lines 80–128) in
generation order, before the final `list(set(candidates))`:
pattern 1 (`^(.+?\d+)丁目`) contributes the base and its kanji-numeral
variant; pattern 2 (`^(.+?)(\d+)-`) contributes the synthesized base, its
kanji variant and the bare area name; pattern 3 (`^(\D+)`) contributes the
leading non-digit run.  All three patterns are tried independently. -/
def choumeCandidatesRanked (address : Str) : List Str :=
  if address = [] then []
  else
    let normalized := (normalizeAddressMY address).map
      (fun c => if c = '－' ∨ c = '−' ∨ c = 'ー' ∨ c = '‐' then '-' else c)
    let c1 :=
      match patSearch termChoume normalized with
      | some (pre, ds) =>
        let base := pre ++ ds ++ ['丁', '目']
        [base, numToKanji base]
      | none => []
    let c2 :=
      match patSearch termHyphen1 normalized with
      | some (area, num) =>
        [area ++ num ++ ['丁', '目'], area ++ numToKanji num ++ ['丁', '目'], area]
      | none => []
    let c3 :=
      match leadingNonDigits normalized with
      | some l => [l]
      | none => []
    c1 ++ c2 ++ c3

/-- An allowed value of `list(set(candidates))`: CPython guarantees each
distinct element exactly once, in an unspecified (hash-dependent,
run-to-run varying) order — nothing more. -/
def pySetList (l : List Str) (out : List Str) : Prop :=
  out.Nodup ∧ (∀ x ∈ out, x ∈ l) ∧ ∀ x ∈ l, x ∈ out

instance (l out : List Str) : Decidable (pySetList l out) := by
  unfold pySetList; infer_instance

/-- Order-preserving deduplication (first occurrence kept): what the spec's
"deduplicated but retained in rank order" demands of the returned list. -/
def dedupKeepFirstGo (seen : List Str) : List Str → List Str
  | [] => []
  | x :: rest =>
    if x ∈ seen then dedupKeepFirstGo seen rest
    else x :: dedupKeepFirstGo (x :: seen) rest

/-- Deduplication preserving the first occurrence of each candidate. -/
def dedupKeepFirst (l : List Str) : List Str := dedupKeepFirstGo [] l

/-! ### Concrete instances used by the claim theorems -/

/-- A well-formed stored record (key `(2000, 桜上水5番40)`), as produced by
produced by an import of the raw address `世田谷区桜上水５－４０` with price `500000`. -/
def recKokudoA : KokudoRec :=
  { survey_year := 2000
    original_address := ['桜', '上', '水', '5', '番', '4', '0']
    official_price := some 500000
    land_area := some 100
    data_source := ['地', '価', '公', '示']
    latitude := some 35
    longitude := some 139
    created_at := 7
    land_use := none
    building_coverage_ratio := none
    floor_area_ratio := none
    road_direction := none
    road_width := none
    nearest_station := none
    station_distance := none }

/-- A second record with the same natural key as `recKokudoA` but a
different price and different coordinates (a distinct survey point whose
raw address `東京都世田谷区桜上水5-40` normalizes to the same string). -/
def recKokudoB : KokudoRec :=
  { recKokudoA with official_price := some 600000, latitude := some 36, longitude := some 140 }

/-- The aggregation rows of a two-year series whose first year has only
null prices: the natural denominator-is-null test series for the
change-rate computations. -/
def aggRowsNullFirst : List AggYearRow :=
  [{ survey_year := 2000, point_count := 1, avg_price := none, min_price := none,
     max_price := none },
   { survey_year := 2001, point_count := 1, avg_price := some 100, min_price := some 100,
     max_price := some 100 }]

/-- A two-entry catalog dict: a longer name `梅里東1丁目` before a shorter
name `西梅里`, both containing the candidate `梅里`. -/
def dictUmeri : List (Str × Str) :=
  buildChoumeDict
    [(['梅', '里', '東', '1', '丁', '目'], ['0', '0', '1']),
     (['西', '梅', '里'], ['0', '0', '2'])]

/-- A one-entry catalog dict holding only `奥沢1丁目`. -/
def dictOkuzawa : List (Str × Str) :=
  buildChoumeDict [(['奥', '沢', '1', '丁', '目'], ['c', '0', '1'])]

/-- A raw historical row whose address extracts to `豪徳寺1丁目` — absent
from `dictOkuzawa`, so unmatched in every tier. -/
def histRowUnmatched : HistRow :=
  { address := ['豪', '徳', '寺', '1', '丁', '目', '5', '番']
    survey_year := some 2000
    price_raw := ['5', '0', '0', '0', '0', '0'] }

/-- A raw historical row whose address extracts to `奥沢1丁目` — an exact
dict-key hit in `dictOkuzawa`. -/
def histRowMatched : HistRow :=
  { address := ['奥', '沢', '1', '丁', '目', '5', '番']
    survey_year := some 2001
    price_raw := ['3', '0', '0', '0', '0', '0'] }

/-- The matched record `histRowMatched` produces. -/
def matchedRecOkuzawa : MatchedRec :=
  { choume_code := ['c', '0', '1']
    choume_name := ['奥', '沢', '1', '丁', '目']
    survey_year := 2001
    official_price := 300000
    original_address := histRowMatched.address }

/-- The address `喜多見9-19-6`, on which `extract_choume_candidates`
generates four candidates (one a duplicate). -/
def addrKitami : Str := ['喜', '多', '見', '9', '-', '1', '9', '-', '6']

/-- An enumeration of the candidate set of `addrKitami` that a Python
`set` may produce: the distinct candidates, but not in generation order. -/
def kitamiOutOfOrder : List Str :=
  [['喜', '多', '見'],
   ['喜', '多', '見', '9', '丁', '目'],
   ['喜', '多', '見', '九', '丁', '目']]

/-! ## Claim theorems -/

/-- C5: the price sanitizer maps the sentinel tokens (empty string, the
`'_'` placeholder, `'false'`) to null rather than zero, and every
successfully parsed value strictly below the 10000 threshold is multiplied
by 100 while values at or above the threshold pass through unchanged. -/
theorem sanitizePrice_spec :
    (sanitizePrice none = none ∧ sanitizePrice (some []) = none ∧
      sanitizePrice (some ['_']) = none ∧
      sanitizePrice (some ['f', 'a', 'l', 's', 'e']) = none) ∧
    ∀ s v,
      ¬(s = [] ∨ s = ['_'] ∨ s = ['f', 'a', 'l', 's', 'e'] ∨ s = ['N', 'o', 'n', 'e']) →
      parsePyNumber s = some v →
      sanitizePrice (some s) = some (if v < 10000 then v * 100 else v) := by
  refine ⟨by decide, ?_⟩
  intro s v hs hv
  simp only [sanitizePrice, if_neg hs, hv]

/-- Witness for C5: `500` parses below the threshold and is scaled to
`50000`; `650000` is returned unchanged. -/
theorem sanitizePrice_spec_witness :
    sanitizePrice (some ['5', '0', '0']) = some 50000 ∧
    sanitizePrice (some ['6', '5', '0', '0', '0', '0']) = some 650000 := by
  constructor
  · rw [sanitizePrice_spec.2 ['5', '0', '0'] 500 (by decide) (by decide)]; decide
  · rw [sanitizePrice_spec.2 ['6', '5', '0', '0', '0', '0'] 650000 (by decide) (by decide)]
    decide

/-- C6 (failing input): in the batch `[recKokudoA (succeeds), recKokudoB
(raises)]` over an empty table, the failing second record's
`conn.rollback()` discards the already-executed insert of the first record,
so the final commit persists nothing — while `success_count` still reports
1.  Without the failing record the first record persists. -/
theorem import_rollback_failing_input :
    importToDbTx [] [(false, recKokudoA), (true, recKokudoB)] = ([], 1, 1) ∧
    importToDbTx [] [(false, recKokudoA)] = ([recKokudoA], 1, 0) := by decide

/-- C3 (counterexample): in a series whose first-year average is null, the
prior-year change of the second row, the full-span change and the 5-year
change are all the numeric `0.0` — not null, as the claim requires — and
`fetch` returns them as ordinary numbers. -/
theorem changeRate_null_denominator_counterexample :
    fetchChangeRates aggRowsNullFirst = some ([0, 0], 0, 0, 0) ∧
    aggRowsNullFirst.head?.map (fun r => r.avg_price) = some none := by decide

/-- C4 (counterexample): the candidate `梅里` is contained in both catalog
names, the first (`梅里東1丁目`) strictly longer after marker-stripping than
the second (`西梅里`); the code resolves to the second, later, shorter name
— neither the longest-overlap choice nor Unresolved. -/
theorem tier3_choice_counterexample :
    matchChoume dictUmeri ['梅', '里'] = some (['0', '0', '2'], ['西', '梅', '里']) ∧
    isSubstr ['梅', '里'] (pyStrip (stripChoumeMarker ['梅', '里', '東', '1', '丁', '目'])) = true ∧
    isSubstr ['梅', '里'] (pyStrip (stripChoumeMarker ['西', '梅', '里'])) = true ∧
    (pyStrip (stripChoumeMarker ['西', '梅', '里'])).length <
      (pyStrip (stripChoumeMarker ['梅', '里', '東', '1', '丁', '目'])).length := by decide

/-- C7 (counterexample): `kitamiOutOfOrder` is a legitimate value of
`list(set(candidates))` for the address `喜多見9-19-6` — the distinct
candidates, enumerated in some set order — yet it is not the rank-order
deduplication of the generated candidates, so the returned list does not
preserve generation rank order. -/
theorem candidates_order_counterexample :
    pySetList (choumeCandidatesRanked addrKitami) kitamiOutOfOrder ∧
    kitamiOutOfOrder ≠ dedupKeepFirst (choumeCandidatesRanked addrKitami) := by decide

/-- C8 (counterexample): a record whose extracted name `豪徳寺1丁目` matches
no catalog entry in any tier is dropped from `matched_records` entirely —
the output is empty, so the record is not retained with a null block code. -/
theorem unmatched_not_retained_counterexample :
    extractChoumeName histRowUnmatched.address = some ['豪', '徳', '寺', '1', '丁', '目'] ∧
    matchChoume dictOkuzawa ['豪', '徳', '寺', '1', '丁', '目'] = none ∧
    parseHistPrice histRowUnmatched.price_raw = some 500000 ∧
    matchWithChoumeRecords dictOkuzawa [histRowUnmatched] = [] := by decide

/-! ### Supporting lemmas for the aggregation invariant (C1) -/

theorem pgAvgInt_lower (mi s : Int) (n : Nat) (hn : 0 < n) (h : mi * (n : Int) ≤ s) :
    mi ≤ pgAvgInt s n := by
  unfold pgAvgInt
  split
  case isTrue hs =>
    rcases le_or_lt mi 0 with hmi | hmi
    · exact le_trans hmi (Int.ofNat_nonneg _)
    · lift mi to Nat using le_of_lt hmi with m
      have hmn : m * n ≤ s.toNat := by
        have : ((m * n : Nat) : Int) ≤ ((s.toNat : Nat) : Int) := by
          push_cast
          rw [Int.toNat_of_nonneg hs]
          exact_mod_cast h
        exact_mod_cast this
      have hdiv : m ≤ (2 * s.toNat + n) / (2 * n) := by
        rw [Nat.le_div_iff_mul_le (by omega)]
        calc m * (2 * n) = 2 * (m * n) := by ring
          _ ≤ 2 * s.toNat := Nat.mul_le_mul_left 2 hmn
          _ ≤ 2 * s.toNat + n := Nat.le_add_right _ _
      exact_mod_cast hdiv
  case isFalse hs =>
    push_neg at hs
    have hmi : mi < 0 := by
      by_contra hc
      push_neg at hc
      have : (0 : Int) ≤ mi * (n : Int) := mul_nonneg hc (by positivity)
      linarith
    obtain ⟨k, hk⟩ : ∃ k : Nat, mi = -(k : Int) := ⟨(-mi).toNat, by omega⟩
    obtain ⟨t, ht⟩ : ∃ t : Nat, s = -(t : Int) := ⟨(-s).toNat, by omega⟩
    have htk : t ≤ k * n := by
      have : ((t : Nat) : Int) ≤ ((k * n : Nat) : Int) := by
        push_cast
        nlinarith [h, hk, ht]
      exact_mod_cast this
    have hq : (2 * (-s).toNat + n) / (2 * n) ≤ k := by
      have h2 : (-s).toNat = t := by omega
      rw [h2, Nat.lt_succ_iff.symm, Nat.lt_succ_iff]
      have : (2 * t + n) / (2 * n) < k + 1 := by
        rw [Nat.div_lt_iff_lt_mul (by omega)]
        calc 2 * t + n ≤ 2 * (k * n) + n := by
              exact Nat.add_le_add_right (Nat.mul_le_mul_left 2 htk) n
          _ < (k + 1) * (2 * n) := by
              rw [show (k + 1) * (2 * n) = 2 * (k * n) + 2 * n from by ring]
              exact Nat.add_lt_add_left (by omega) _
      omega
    omega

theorem pgAvgInt_upper (ma s : Int) (n : Nat) (hn : 0 < n) (h : s ≤ ma * (n : Int)) :
    pgAvgInt s n ≤ ma := by
  unfold pgAvgInt
  split
  case isTrue hs =>
    have hma : 0 ≤ ma := by
      by_contra hc
      push_neg at hc
      have : ma * (n : Int) < 0 := mul_neg_of_neg_of_pos hc (by positivity)
      linarith
    lift ma to Nat using hma with m
    have hsm : s.toNat ≤ m * n := by
      have : ((s.toNat : Nat) : Int) ≤ ((m * n : Nat) : Int) := by
        push_cast
        rw [Int.toNat_of_nonneg hs]
        exact_mod_cast h
      exact_mod_cast this
    have hdiv : (2 * s.toNat + n) / (2 * n) ≤ m := by
      have : (2 * s.toNat + n) / (2 * n) < m + 1 := by
        rw [Nat.div_lt_iff_lt_mul (by omega)]
        calc 2 * s.toNat + n ≤ 2 * (m * n) + n := Nat.add_le_add_right (Nat.mul_le_mul_left 2 hsm) n
          _ < (m + 1) * (2 * n) := by
            rw [show (m + 1) * (2 * n) = 2 * (m * n) + 2 * n from by ring]
            exact Nat.add_lt_add_left (by omega) _
      omega
    exact_mod_cast hdiv
  case isFalse hs =>
    push_neg at hs
    rcases le_or_lt 0 ma with hma | hma
    · have : (0 : Int) ≤ ((2 * (-s).toNat + n) / (2 * n) : Nat) := Int.ofNat_nonneg _
      omega
    · obtain ⟨k, hk⟩ : ∃ k : Nat, ma = -(k : Int) := ⟨(-ma).toNat, by omega⟩
      obtain ⟨t, ht⟩ : ∃ t : Nat, s = -(t : Int) := ⟨(-s).toNat, by omega⟩
      have hkt : k * n ≤ t := by
        have : ((k * n : Nat) : Int) ≤ ((t : Nat) : Int) := by
          push_cast
          nlinarith [h, hk, ht]
        exact_mod_cast this
      have hq : k ≤ (2 * (-s).toNat + n) / (2 * n) := by
        have h2 : (-s).toNat = t := by omega
        rw [h2, Nat.le_div_iff_mul_le (by omega)]
        calc k * (2 * n) = 2 * (k * n) := by ring
          _ ≤ 2 * t := Nat.mul_le_mul_left 2 hkt
          _ ≤ 2 * t + n := Nat.le_add_right _ _
      omega

theorem sqlMinInt_eq_none_iff (ps : List Int) : sqlMinInt ps = none ↔ ps = [] := by
  cases ps with
  | nil => simp [sqlMinInt]
  | cons p rest =>
    simp only [sqlMinInt]
    cases sqlMinInt rest <;> simp

theorem sqlMaxInt_eq_none_iff (ps : List Int) : sqlMaxInt ps = none ↔ ps = [] := by
  cases ps with
  | nil => simp [sqlMaxInt]
  | cons p rest =>
    simp only [sqlMaxInt]
    cases sqlMaxInt rest <;> simp

theorem sqlMinInt_mul_le_sum :
    ∀ (ps : List Int) (m : Int), sqlMinInt ps = some m → m * (ps.length : Int) ≤ ps.sum := by
  intro ps
  induction ps with
  | nil => intro m h; simp [sqlMinInt] at h
  | cons p rest ih =>
    intro m h
    simp only [sqlMinInt] at h
    cases hr : sqlMinInt rest with
    | none =>
      rw [hr] at h
      have hrest : rest = [] := (sqlMinInt_eq_none_iff rest).mp hr
      subst hrest
      simp only [Option.some.injEq] at h
      subst h
      simp
    | some mr =>
      rw [hr] at h
      simp only [Option.some.injEq] at h
      have h1 : m ≤ p := h ▸ min_le_left p mr
      have h2 : m ≤ mr := h ▸ min_le_right p mr
      have ih' := ih mr hr
      have hlen : m * (rest.length : Int) ≤ mr * (rest.length : Int) :=
        mul_le_mul_of_nonneg_right h2 (by positivity)
      simp only [List.length_cons, List.sum_cons]
      push_cast
      rw [mul_add, mul_one]
      linarith

theorem sum_le_sqlMaxInt_mul :
    ∀ (ps : List Int) (m : Int), sqlMaxInt ps = some m → ps.sum ≤ m * (ps.length : Int) := by
  intro ps
  induction ps with
  | nil => intro m h; simp [sqlMaxInt] at h
  | cons p rest ih =>
    intro m h
    simp only [sqlMaxInt] at h
    cases hr : sqlMaxInt rest with
    | none =>
      rw [hr] at h
      have hrest : rest = [] := (sqlMaxInt_eq_none_iff rest).mp hr
      subst hrest
      simp only [Option.some.injEq] at h
      subst h
      simp
    | some mr =>
      rw [hr] at h
      simp only [Option.some.injEq] at h
      have h1 : p ≤ m := h ▸ le_max_left p mr
      have h2 : mr ≤ m := h ▸ le_max_right p mr
      have ih' := ih mr hr
      have hlen : mr * (rest.length : Int) ≤ m * (rest.length : Int) :=
        mul_le_mul_of_nonneg_right h2 (by positivity)
      simp only [List.length_cons, List.sum_cons]
      push_cast
      rw [mul_add, mul_one]
      linarith

theorem sqlStats_between (ps : List Int) (a mi ma : Int)
    (ha : sqlAvgInt ps = some a) (hmi : sqlMinInt ps = some mi) (hma : sqlMaxInt ps = some ma) :
    mi ≤ a ∧ a ≤ ma := by
  have hne : ps ≠ [] := by
    intro hc
    subst hc
    simp [sqlAvgInt] at ha
  have hlen : 0 < ps.length := List.length_pos.mpr hne
  have ha' : a = pgAvgInt ps.sum ps.length := by
    simp only [sqlAvgInt, if_neg hne, Option.some.injEq] at ha
    omega
  subst ha'
  exact ⟨pgAvgInt_lower mi ps.sum ps.length hlen (sqlMinInt_mul_le_sum ps mi hmi),
    pgAvgInt_upper ma ps.sum ps.length hlen (sum_le_sqlMaxInt_mul ps ma hma)⟩

theorem mem_insertAsc (y z : Nat) (l : List Nat) : y ∈ insertAsc z l ↔ y = z ∨ y ∈ l := by
  induction l with
  | nil => simp [insertAsc]
  | cons a rest ih =>
    simp only [insertAsc]
    split
    · simp
    · simp only [List.mem_cons, ih]
      tauto

theorem mem_sortedYears (y : Nat) (pts : List StoredPoint) :
    y ∈ sortedYears pts ↔ ∃ p ∈ pts, p.survey_year = y := by
  unfold sortedYears
  have hfold : ∀ l : List Nat, y ∈ l.foldr insertAsc [] ↔ y ∈ l := by
    intro l
    induction l with
    | nil => simp
    | cons a rest ih => simp [List.foldr, mem_insertAsc, ih]
  rw [hfold, List.mem_dedup, List.mem_map]

/-- C1: every aggregated yearly row produced by the grouping query has a
point count of at least 1, and whenever its price statistics are non-null
they satisfy `min ≤ avg ≤ max`. -/
theorem landPrice_agg_invariant (store : List StoredPoint) (choume : Str) (row : AggYearRow)
    (hrow : row ∈ landPriceAggRows store choume) :
    1 ≤ row.point_count ∧
      ∀ a mi ma, row.avg_price = some a → row.min_price = some mi → row.max_price = some ma →
        mi ≤ a ∧ a ≤ ma := by
  unfold landPriceAggRows at hrow
  obtain ⟨y, hy, hrow⟩ := List.mem_map.mp hrow
  obtain ⟨p, hp, hpy⟩ := (mem_sortedYears y _).mp hy
  subst hrow
  constructor
  · have : p ∈ (store.filter (likeFilter (searchBase choume))).filter
        (fun q => decide (q.survey_year = y)) := by
      rw [List.mem_filter]
      exact ⟨hp, by simp [hpy]⟩
    have hlen := List.length_pos.mpr (List.ne_nil_of_mem this)
    simpa [aggRowOf] using hlen
  · intro a mi ma ha hmi hma
    exact sqlStats_between _ a mi ma ha hmi hma

/-- Witness for C1: a three-point store whose single block-year group has
`count = 3` and statistics `min = 100 ≤ avg = 126 ≤ max = 151`. -/
theorem landPrice_agg_invariant_witness :
    1 ≤ (AggYearRow.mk 2000 3 (some 126) (some 100) (some 151)).point_count ∧
      ∀ a mi ma,
        (AggYearRow.mk 2000 3 (some 126) (some 100) (some 151)).avg_price = some a →
        (AggYearRow.mk 2000 3 (some 126) (some 100) (some 151)).min_price = some mi →
        (AggYearRow.mk 2000 3 (some 126) (some 100) (some 151)).max_price = some ma →
        mi ≤ a ∧ a ≤ ma :=
  landPrice_agg_invariant
    [{ survey_year := 2000, official_price := some 100, original_address := ['甲'] },
     { survey_year := 2000, official_price := some 151, original_address := ['乙'] },
     { survey_year := 2000, official_price := some 127, original_address := ['丙'] }]
    [] (AggYearRow.mk 2000 3 (some 126) (some 100) (some 151)) (by decide)

/-- C3 (amended): every change-rate horizon yields the numeric `0.0` — not
null — when its denominator is unavailable: a missing or non-positive
denominator average gives `0.0`, and a series too short for the 5-year or
1-year horizon gives `0.0`. -/
theorem changeRate_zero_default :
    (∀ curr, changeRate none curr = Except.ok 0) ∧
    (∀ p curr, p ≤ 0 → changeRate (some p) curr = Except.ok 0) ∧
    (∀ rows hist c26 c5 c1, fetchChangeRates rows = some (hist, c26, c5, c1) →
      (rows.length < 5 → c5 = 0) ∧ (rows.length < 2 → c1 = 0)) := by
  refine ⟨fun curr => rfl, ?_, ?_⟩
  · intro p curr hp
    simp [changeRate, not_lt.mpr hp]
  · intro rows hist c26 c5 c1 h
    unfold fetchChangeRates at h
    split at h
    case h_2 => exact absurd h (by simp)
    case h_1 oldest latest hh hl =>
      split at h
      case h_1 => exact absurd h (by simp)
      case h_2 hist' hhist =>
        split at h
        case h_1 => exact absurd h (by simp)
        case h_2 c26' hc26 =>
          split at h
          case h_1 => exact absurd h (by simp)
          case h_2 c5' hc5 =>
            split at h
            case h_1 => exact absurd h (by simp)
            case h_2 c1' hc1 =>
              simp only [Option.some.injEq, Prod.mk.injEq] at h
              obtain ⟨h1, h2, h3, h4⟩ := h
              subst h1; subst h2; subst h3; subst h4
              constructor
              · intro hlen
                rw [if_neg (by omega)] at hc5
                exact (Except.ok.injEq _ _ ▸ hc5.symm :)
              · intro hlen
                rw [if_neg (by omega)] at hc1
                exact (Except.ok.injEq _ _ ▸ hc1.symm :)

/-- Witness for C3 (amended): a null denominator and a zero denominator
both give the numeric `0.0`. -/
theorem changeRate_zero_default_witness :
    changeRate none (some 5) = Except.ok 0 ∧ changeRate (some 0) (some 7) = Except.ok 0 :=
  ⟨changeRate_zero_default.1 (some 5), changeRate_zero_default.2.1 0 (some 7) (by decide)⟩

/-! ### Supporting lemmas for upsert idempotence (C2, C10) -/

theorem rowKey_updateRow (x r : KokudoRec) : rowKey (updateRow x r) = rowKey x := rfl

theorem updateRow_updateRow (x r' r : KokudoRec) :
    updateRow (updateRow x r') r = updateRow x r := rfl

theorem updateRow_self (x : KokudoRec) : updateRow x x = x := rfl

theorem foldl_updateRow_append (x r : KokudoRec) (l : List KokudoRec) :
    List.foldl updateRow x (l ++ [r]) = updateRow x r := by
  induction l generalizing x with
  | nil => rfl
  | cons c l' ih =>
    simp only [List.cons_append, List.foldl_cons]
    rw [ih, updateRow_updateRow]

theorem keyMem_iff (s : List KokudoRec) (k : Nat × Str) :
    keyMem s k = true ↔ ∃ x ∈ s, rowKey x = k := by
  simp [keyMem, List.any_eq_true]

theorem applyRec_present (s : List KokudoRec) (r : KokudoRec)
    (h : keyMem s (rowKey r) = true) :
    applyRec s r = s.map (fun x => if rowKey x = rowKey r then updateRow x r else x) := by
  simp [applyRec, h]

theorem applyRec_absent (s : List KokudoRec) (r : KokudoRec)
    (h : keyMem s (rowKey r) = false) :
    applyRec s r = s ++ [r] := by
  simp [applyRec, h]

theorem keyMem_map_keyfix (s : List KokudoRec) (f : KokudoRec → KokudoRec)
    (hf : ∀ x, rowKey (f x) = rowKey x) (k : Nat × Str) :
    keyMem (s.map f) k = keyMem s k := by
  simp [keyMem, List.any_map, Function.comp_def, hf]

theorem keyMem_applyRec (s : List KokudoRec) (r : KokudoRec) (k : Nat × Str) :
    keyMem (applyRec s r) k = true ↔ (keyMem s k = true ∨ k = rowKey r) := by
  unfold applyRec
  split
  case isTrue h =>
    rw [keyMem_map_keyfix]
    · constructor
      · exact Or.inl
      · rintro (h' | rfl)
        · exact h'
        · exact h
    · intro x
      split
      · exact rowKey_updateRow ..
      · rfl
  case isFalse h =>
    simp only [keyMem, List.any_append, Bool.or_eq_true, List.any_cons, List.any_nil,
      Bool.or_false, decide_eq_true_eq]
    constructor
    · rintro (h' | h')
      · exact Or.inl h'
      · exact Or.inr h'.symm
    · rintro (h' | rfl)
      · exact Or.inl h'
      · exact Or.inr rfl

theorem keyMem_importToDb_of_keyMem :
    ∀ (b : List KokudoRec) (s : List KokudoRec) (k : Nat × Str),
      keyMem s k = true → keyMem (importToDb s b) k = true := by
  intro b
  induction b with
  | nil => intro s k h; exact h
  | cons r b' ih =>
    intro s k h
    simp only [importToDb, List.foldl_cons]
    exact ih (applyRec s r) k ((keyMem_applyRec s r k).mpr (Or.inl h))

theorem keyMem_importToDb_of_mem :
    ∀ (b : List KokudoRec) (s : List KokudoRec) (r : KokudoRec),
      r ∈ b → keyMem (importToDb s b) (rowKey r) = true := by
  intro b
  induction b with
  | nil => intro s r h; simp at h
  | cons r' b' ih =>
    intro s r h
    simp only [importToDb, List.foldl_cons]
    rcases List.mem_cons.mp h with rfl | h'
    · exact keyMem_importToDb_of_keyMem b' (applyRec s r) (rowKey r)
        ((keyMem_applyRec s r (rowKey r)).mpr (Or.inr rfl))
    · exact ih (applyRec s r') r h'

theorem importToDb_eq_map_of_all_present :
    ∀ (b : List KokudoRec) (t : List KokudoRec),
      (∀ r ∈ b, keyMem t (rowKey r) = true) →
      importToDb t b =
        t.map (fun x => List.foldl updateRow x
          (b.filter (fun r => decide (rowKey r = rowKey x)))) := by
  intro b
  induction b with
  | nil =>
    intro t _
    simp [importToDb]
  | cons r b' ih =>
    intro t hall
    have hr := hall r (List.mem_cons_self r b')
    simp only [importToDb, List.foldl_cons]
    rw [applyRec_present t r hr]
    have hkeyfix : ∀ x : KokudoRec,
        rowKey (if rowKey x = rowKey r then updateRow x r else x) = rowKey x := by
      intro x
      split
      · exact rowKey_updateRow ..
      · rfl
    have hkeys : ∀ r' ∈ b',
        keyMem (t.map (fun x => if rowKey x = rowKey r then updateRow x r else x))
          (rowKey r') = true := by
      intro r' hr'
      rw [keyMem_map_keyfix _ _ hkeyfix]
      exact hall r' (List.mem_cons_of_mem r hr')
    have hstep := ih (t.map (fun x => if rowKey x = rowKey r then updateRow x r else x)) hkeys
    simp only [importToDb] at hstep
    rw [hstep, List.map_map]
    apply List.map_congr_left
    intro x _
    simp only [Function.comp_def]
    by_cases hxy : rowKey r = rowKey x
    · rw [if_pos hxy.symm]
      rw [List.filter_cons_of_pos (by simp [hxy])]
      simp only [List.foldl_cons, rowKey_updateRow]
    · rw [if_neg (fun hc => hxy hc.symm)]
      rw [List.filter_cons_of_neg (by simp [hxy])]

theorem mem_of_mem_importToDb_no_key :
    ∀ (b : List KokudoRec) (t : List KokudoRec) (x : KokudoRec),
      x ∈ importToDb t b → (∀ r' ∈ b, rowKey r' ≠ rowKey x) → x ∈ t := by
  intro b
  induction b with
  | nil =>
    intro t x h _
    simpa [importToDb] using h
  | cons r b' ih =>
    intro t x h hk
    have hx' : x ∈ applyRec t r := by
      refine ih (applyRec t r) x ?_ (fun r' hr' => hk r' (List.mem_cons_of_mem r hr'))
      simpa [importToDb] using h
    unfold applyRec at hx'
    split at hx'
    case isTrue hpres =>
      obtain ⟨y, hy, hfy⟩ := List.mem_map.mp hx'
      by_cases hyr : rowKey y = rowKey r
      · rw [if_pos hyr] at hfy
        exfalso
        apply hk r (List.mem_cons_self r b')
        rw [← hfy, rowKey_updateRow, hyr]
      · rw [if_neg hyr] at hfy
        exact hfy ▸ hy
    case isFalse habsent =>
      rcases List.mem_append.mp hx' with hx'' | hx''
      · exact hx''
      · simp only [List.mem_singleton] at hx''
        subst hx''
        exact absurd rfl (hk x (List.mem_cons_self x b'))

theorem importToDb_absorbed :
    ∀ (b : List KokudoRec) (s : List KokudoRec) (x : KokudoRec),
      x ∈ importToDb s b →
      List.foldl updateRow x (b.filter (fun r => decide (rowKey r = rowKey x))) = x := by
  intro b
  induction b with
  | nil => intro s x _; rfl
  | cons r b' ih =>
    intro s x hx
    have hx' : x ∈ importToDb (applyRec s r) b' := by
      simpa [importToDb] using hx
    by_cases hk : rowKey r = rowKey x
    · rw [List.filter_cons_of_pos (by simp [hk])]
      cases hF : b'.filter (fun r' => decide (rowKey r' = rowKey x)) with
      | nil =>
        have hb' : ∀ r' ∈ b', rowKey r' ≠ rowKey x := by
          intro r' hr' he
          have hmem : r' ∈ b'.filter (fun r'' => decide (rowKey r'' = rowKey x)) :=
            List.mem_filter.mpr ⟨hr', by simp [he]⟩
          rw [hF] at hmem
          simp at hmem
        have hxa : x ∈ applyRec s r := mem_of_mem_importToDb_no_key b' _ x hx' hb'
        have habs : updateRow x r = x := by
          unfold applyRec at hxa
          split at hxa
          case isTrue hpres =>
            obtain ⟨y, hy, hfy⟩ := List.mem_map.mp hxa
            by_cases hyr : rowKey y = rowKey r
            · rw [if_pos hyr] at hfy
              rw [← hfy, updateRow_updateRow]
            · rw [if_neg hyr] at hfy
              exact absurd (by rw [hfy, ← hk]) hyr
          case isFalse habsent =>
            rcases List.mem_append.mp hxa with hxs | hxr
            · exfalso
              have : keyMem s (rowKey r) = true :=
                (keyMem_iff s (rowKey r)).mpr ⟨x, hxs, hk.symm⟩
              exact habsent this
            · simp only [List.mem_singleton] at hxr
              subst hxr
              exact updateRow_self x
        simp only [List.foldl_cons, List.foldl_nil]
        exact habs
      | cons f1 F' =>
        have ihx := ih (applyRec s r) x hx'
        have hne : b'.filter (fun r' => decide (rowKey r' = rowKey x)) ≠ [] := by
          rw [hF]; simp
        obtain ⟨l, last, hdecomp⟩ :
            ∃ l last, b'.filter (fun r' => decide (rowKey r' = rowKey x)) = l ++ [last] :=
          ⟨_, _, (List.dropLast_append_getLast hne).symm⟩
        rw [hdecomp] at ihx
        rw [foldl_updateRow_append] at ihx
        rw [← hF, hdecomp]
        simp only [List.foldl_cons]
        rw [foldl_updateRow_append, updateRow_updateRow]
        exact ihx
    · rw [List.filter_cons_of_neg (by simp [hk])]
      exact ih (applyRec s r) x hx'

/-- C2: running `import_to_db` twice with the identical batch leaves the
store exactly as one run leaves it — the same rows with the same contents,
hence the same row count; re-importing a year with the same inputs never
duplicates rows. -/
theorem upsert_idempotent (s b : List KokudoRec) :
    importToDb (importToDb s b) b = importToDb s b := by
  have hall : ∀ r ∈ b, keyMem (importToDb s b) (rowKey r) = true :=
    fun r hr => keyMem_importToDb_of_mem b s r hr
  rw [importToDb_eq_map_of_all_present b (importToDb s b) hall]
  have habs : ∀ x ∈ importToDb s b,
      List.foldl updateRow x (b.filter (fun r => decide (rowKey r = rowKey x))) = x :=
    fun x hx => importToDb_absorbed b s x hx
  calc (importToDb s b).map
        (fun x => List.foldl updateRow x (b.filter (fun r => decide (rowKey r = rowKey x))))
      = (importToDb s b).map (fun x => x) := List.map_congr_left habs
    _ = importToDb s b := List.map_id' (importToDb s b)

theorem runYears_cons (today : Nat) (st : RunSummary) (j : Nat × YearJob)
    (js : List (Nat × YearJob)) :
    runYears today st (j :: js) = runYears today (runYearStep today st j) js := by
  simp [runYears]

theorem runYearStep_keeps (today : Nat) (a b : RunSummary) (j : Nat × YearJob)
    (h1 : a.store = b.store) (h2 : a.success_years = b.success_years)
    (h3 : a.total_imported = b.total_imported) :
    (runYearStep today a j).store = (runYearStep today b j).store ∧
    (runYearStep today a j).success_years = (runYearStep today b j).success_years ∧
    (runYearStep today a j).total_imported = (runYearStep today b j).total_imported := by
  obtain ⟨y, job⟩ := j
  cases job <;> simp [runYearStep, h1, h2, h3]

theorem runYears_failed_indep :
    ∀ (ys : List (Nat × YearJob)) (today : Nat) (a b : RunSummary),
      a.store = b.store → a.success_years = b.success_years →
      a.total_imported = b.total_imported →
      (runYears today a ys).store = (runYears today b ys).store ∧
      (runYears today a ys).success_years = (runYears today b ys).success_years ∧
      (runYears today a ys).total_imported = (runYears today b ys).total_imported := by
  intro ys
  induction ys with
  | nil => intro today a b h1 h2 h3; exact ⟨h1, h2, h3⟩
  | cons j ys' ih =>
    intro today a b h1 h2 h3
    rw [runYears_cons, runYears_cons]
    obtain ⟨g1, g2, g3⟩ := runYearStep_keeps today a b j h1 h2 h3
    exact ih today _ _ g1 g2 g3

theorem runYears_failed_mono :
    ∀ (ys : List (Nat × YearJob)) (today : Nat) (st : RunSummary) (v : Nat),
      v ∈ st.failed_years → v ∈ (runYears today st ys).failed_years := by
  intro ys
  induction ys with
  | nil => intro today st v h; exact h
  | cons j ys' ih =>
    intro today st v h
    rw [runYears_cons]
    apply ih
    obtain ⟨y, job⟩ := j
    cases job <;> simp [runYearStep, h]

/-- C9: a raising row never aborts `extract_records` — the extracted
records are exactly those of the batch without the raising row — and a
raising year never aborts the multi-year run — the store, success list and
totals are exactly those of the run without the raising year, which
only lands in `failed_years`. -/
theorem per_record_per_year_isolation :
    (∀ (year today : Nat) (xs ys : List RowInput),
      extractRecords year today (xs ++ RowInput.raises :: ys) =
        extractRecords year today (xs ++ ys)) ∧
    (∀ (today : Nat) (st : RunSummary) (y : Nat) (xs ys : List (Nat × YearJob)),
      (runYears today st (xs ++ (y, YearJob.raises) :: ys)).store =
        (runYears today st (xs ++ ys)).store ∧
      (runYears today st (xs ++ (y, YearJob.raises) :: ys)).success_years =
        (runYears today st (xs ++ ys)).success_years ∧
      (runYears today st (xs ++ (y, YearJob.raises) :: ys)).total_imported =
        (runYears today st (xs ++ ys)).total_imported ∧
      y ∈ (runYears today st (xs ++ (y, YearJob.raises) :: ys)).failed_years) := by
  constructor
  · intro year today xs ys
    simp [extractRecords, List.filterMap_append]
  · intro today st y xs ys
    induction xs generalizing st with
    | nil =>
      simp only [List.nil_append]
      rw [runYears_cons]
      obtain ⟨g1, g2, g3⟩ :=
        runYears_failed_indep ys today (runYearStep today st (y, YearJob.raises)) st rfl rfl rfl
      refine ⟨g1, g2, g3, ?_⟩
      apply runYears_failed_mono
      simp [runYearStep]
    | cons j xs' ih =>
      simp only [List.cons_append]
      rw [runYears_cons, runYears_cons]
      exact ih (runYearStep today st j)

/-- C10 (counterexample): two distinct raw addresses normalize to the same
string, so their records share the natural key and collapse into one stored
row — but the stored row keeps the EARLIER record's latitude (only the
SET-clause columns take the later record's values), refuting "the later
record's values overwriting the earlier record's values". -/
theorem upsert_samekey_counterexample :
    normalizeAddressAY ['世', '田', '谷', '区', '桜', '上', '水', '５', '－', '４', '０'] =
      recKokudoA.original_address ∧
    normalizeAddressAY
        ['東', '京', '都', '世', '田', '谷', '区', '桜', '上', '水', '5', '-', '4', '0'] =
      recKokudoA.original_address ∧
    (['世', '田', '谷', '区', '桜', '上', '水', '５', '－', '４', '０'] : Str) ≠
      ['東', '京', '都', '世', '田', '谷', '区', '桜', '上', '水', '5', '-', '4', '0'] ∧
    rowKey recKokudoA = rowKey recKokudoB ∧
    recKokudoA ≠ recKokudoB ∧
    importToDb [] [recKokudoA, recKokudoB] = [updateRow recKokudoA recKokudoB] ∧
    (updateRow recKokudoA recKokudoB).official_price = recKokudoB.official_price ∧
    (updateRow recKokudoA recKokudoB).latitude = recKokudoA.latitude ∧
    recKokudoA.latitude ≠ recKokudoB.latitude := by decide

/-- C10 (amended): two same-key records of one batch collapse into a single
stored row; the later record's values overwrite the earlier record's for
exactly the nine SET-clause columns, while `survey_year`,
`original_address`, `data_source`, `latitude`, `longitude` and `created_at`
keep the earlier record's values. -/
theorem upsert_samekey_amended (s : List KokudoRec) (r1 r2 : KokudoRec)
    (hk : rowKey r1 = rowKey r2) (hs : keyMem s (rowKey r2) = false) :
    importToDb s [r1, r2] = s ++ [updateRow r1 r2] ∧
    (updateRow r1 r2).official_price = r2.official_price ∧
    (updateRow r1 r2).land_area = r2.land_area ∧
    (updateRow r1 r2).land_use = r2.land_use ∧
    (updateRow r1 r2).building_coverage_ratio = r2.building_coverage_ratio ∧
    (updateRow r1 r2).floor_area_ratio = r2.floor_area_ratio ∧
    (updateRow r1 r2).road_direction = r2.road_direction ∧
    (updateRow r1 r2).road_width = r2.road_width ∧
    (updateRow r1 r2).nearest_station = r2.nearest_station ∧
    (updateRow r1 r2).station_distance = r2.station_distance ∧
    (updateRow r1 r2).survey_year = r1.survey_year ∧
    (updateRow r1 r2).original_address = r1.original_address ∧
    (updateRow r1 r2).data_source = r1.data_source ∧
    (updateRow r1 r2).latitude = r1.latitude ∧
    (updateRow r1 r2).longitude = r1.longitude ∧
    (updateRow r1 r2).created_at = r1.created_at := by
  refine ⟨?_, rfl, rfl, rfl, rfl, rfl, rfl, rfl, rfl, rfl, rfl, rfl, rfl, rfl, rfl, rfl⟩
  have h1 : applyRec s r1 = s ++ [r1] := applyRec_absent s r1 (by rw [hk]; exact hs)
  have hpres : keyMem (s ++ [r1]) (rowKey r2) = true :=
    (keyMem_iff _ _).mpr ⟨r1, by simp, hk⟩
  simp only [importToDb, List.foldl_cons, List.foldl_nil]
  rw [h1, applyRec_present (s ++ [r1]) r2 hpres, List.map_append]
  congr 1
  · have hfix : ∀ x ∈ s, (if rowKey x = rowKey r2 then updateRow x r2 else x) = x := by
      intro x hx
      rw [if_neg]
      intro he
      have hcon : keyMem s (rowKey r2) = true := (keyMem_iff _ _).mpr ⟨x, hx, he⟩
      rw [hs] at hcon
      exact absurd hcon (by decide)
    calc s.map (fun x => if rowKey x = rowKey r2 then updateRow x r2 else x)
        = s.map (fun x => x) := List.map_congr_left hfix
      _ = s := List.map_id' s
  · simp [hk]

/-- Witness for C10 (amended): the two concrete same-key records collapse
into the single updated row with the stated per-column provenance. -/
theorem upsert_samekey_amended_witness :
    importToDb [] [recKokudoA, recKokudoB] = [] ++ [updateRow recKokudoA recKokudoB] ∧
    (updateRow recKokudoA recKokudoB).official_price = recKokudoB.official_price ∧
    (updateRow recKokudoA recKokudoB).land_area = recKokudoB.land_area ∧
    (updateRow recKokudoA recKokudoB).land_use = recKokudoB.land_use ∧
    (updateRow recKokudoA recKokudoB).building_coverage_ratio =
      recKokudoB.building_coverage_ratio ∧
    (updateRow recKokudoA recKokudoB).floor_area_ratio = recKokudoB.floor_area_ratio ∧
    (updateRow recKokudoA recKokudoB).road_direction = recKokudoB.road_direction ∧
    (updateRow recKokudoA recKokudoB).road_width = recKokudoB.road_width ∧
    (updateRow recKokudoA recKokudoB).nearest_station = recKokudoB.nearest_station ∧
    (updateRow recKokudoA recKokudoB).station_distance = recKokudoB.station_distance ∧
    (updateRow recKokudoA recKokudoB).survey_year = recKokudoA.survey_year ∧
    (updateRow recKokudoA recKokudoB).original_address = recKokudoA.original_address ∧
    (updateRow recKokudoA recKokudoB).data_source = recKokudoA.data_source ∧
    (updateRow recKokudoA recKokudoB).latitude = recKokudoA.latitude ∧
    (updateRow recKokudoA recKokudoB).longitude = recKokudoA.longitude ∧
    (updateRow recKokudoA recKokudoB).created_at = recKokudoA.created_at :=
  upsert_samekey_amended [] recKokudoA recKokudoB (by decide) (by decide)

/-! ### Supporting lemmas for the tier-3 matching behaviour (C4) -/

theorem isSubstr_nil_true (n : Str) (h : isSubstr n [] = true) : n = [] := by
  simpa [isSubstr, List.isEmpty_iff] using h

theorem getLast?_cons_getD (a : α) (l : List α) :
    (a :: l).getLast? = some ((l.getLast?).getD a) := by
  induction l generalizing a with
  | nil => rfl
  | cons b l' ih =>
    rw [List.getLast?_cons_cons, ih b]
    rfl

theorem matchChoumeLoop_last (d : List (Str × Str)) (nex : Str) (hnex : nex ≠ []) :
    ∀ (l : List (Str × Str)) (acc : Option (Str × Str)),
      (∀ p ∈ l, pyStrip (stripChoumeMarker p.1) ≠ nex) →
      (∀ p ∈ l, isSubstr nex (pyStrip (stripChoumeMarker p.1)) = false →
        ¬(pyStrip (stripChoumeMarker p.1) ≠ [] ∧
          isSubstr (pyStrip (stripChoumeMarker p.1)) nex = true)) →
      (∀ p ∈ l, choumeDictGet d p.2 = []) →
      (∀ c n, acc = some (c, n) → choumeDictGet d c = []) →
      matchChoumeLoop d nex acc l =
        match (l.filter (fun p =>
            isSubstr nex (pyStrip (stripChoumeMarker p.1)))).getLast? with
        | none => acc
        | some p => some (p.2, p.1) := by
  intro l
  induction l with
  | nil => intro acc _ _ _ _; rfl
  | cons q rest ih =>
    intro acc hexact hbwd hget hacc
    obtain ⟨dbName, dbCode⟩ := q
    have hne : ¬ nex = pyStrip (stripChoumeMarker dbName) :=
      fun he => hexact _ (List.mem_cons_self _ _) he.symm
    simp only [matchChoumeLoop]
    rw [if_neg hne]
    by_cases hfwd : isSubstr nex (pyStrip (stripChoumeMarker dbName)) = true
    · rw [if_pos ⟨hnex, hfwd⟩]
      have hndb : pyStrip (stripChoumeMarker dbName) ≠ [] := by
        intro hc
        rw [hc] at hfwd
        exact hnex (isSubstr_nil_true nex hfwd)
      have hfilter :
          (((dbName, dbCode) :: rest).filter (fun p =>
            isSubstr nex (pyStrip (stripChoumeMarker p.1)))) =
          (dbName, dbCode) ::
            (rest.filter (fun p => isSubstr nex (pyStrip (stripChoumeMarker p.1)))) :=
        List.filter_cons_of_pos (by simpa using hfwd)
      rw [hfilter, getLast?_cons_getD]
      have hrest : ∀ acc', (∀ c n, acc' = some (c, n) → choumeDictGet d c = []) →
          matchChoumeLoop d nex acc' rest =
            match (rest.filter (fun p =>
                isSubstr nex (pyStrip (stripChoumeMarker p.1)))).getLast? with
            | none => acc'
            | some p => some (p.2, p.1) :=
        fun acc' hacc' => ih acc'
          (fun p hp => hexact p (List.mem_cons_of_mem _ hp))
          (fun p hp => hbwd p (List.mem_cons_of_mem _ hp))
          (fun p hp => hget p (List.mem_cons_of_mem _ hp)) hacc'
      have hnewinv : ∀ c n, (some (dbCode, dbName) : Option (Str × Str)) = some (c, n) →
          choumeDictGet d c = [] := by
        intro c n hcn
        simp only [Option.some.injEq, Prod.mk.injEq] at hcn
        obtain ⟨hc, _⟩ := hcn
        exact hc ▸ hget _ (List.mem_cons_self _ _)
      have hcond : acc.elim true
          (fun mcn => decide ((stripChoumeMarker (choumeDictGet d mcn.1)).length <
            (pyStrip (stripChoumeMarker dbName)).length)) = true := by
        cases acc with
        | none => rfl
        | some mcn =>
          obtain ⟨mc, mn⟩ := mcn
          simp only [Option.elim, decide_eq_true_eq]
          rw [hacc mc mn rfl]
          simp only [stripChoumeMarker, List.length_nil]
          exact List.length_pos.mpr hndb
      rw [if_pos hcond]
      rw [hrest (some (dbCode, dbName)) hnewinv]
      cases hL : (rest.filter (fun p =>
          isSubstr nex (pyStrip (stripChoumeMarker p.1)))).getLast? with
      | none => rfl
      | some p => rfl
    · rw [if_neg (fun hc => hfwd hc.2)]
      rw [if_neg (hbwd _ (List.mem_cons_self _ _) (Bool.eq_false_iff.mpr hfwd))]
      rw [List.filter_cons_of_neg (by simpa using hfwd)]
      exact ih acc
        (fun p hp => hexact p (List.mem_cons_of_mem _ hp))
        (fun p hp => hbwd p (List.mem_cons_of_mem _ hp))
        (fun p hp => hget p (List.mem_cons_of_mem _ hp)) hacc

/-- C4 (amended): in tier-3 matching, when no catalog name equals the
stripped candidate and none is contained in it, overlap length plays no
role: the chosen entry is simply the LAST catalog entry (in catalog
iteration order) whose stripped name contains the candidate, because the
tie-break compares against `choume_dict.get(matched_code, '')` — a code
looked up in a name-keyed dict, hence always the empty string; a tie never
yields Unresolved. -/
theorem tier3_last_containment_amended (d : List (Str × Str)) (extracted : Str)
    (hkey : d.find? (fun p => decide (p.1 = extracted)) = none)
    (hnex : pyStrip (stripChoumeMarker extracted) ≠ [])
    (hget : ∀ p ∈ d, choumeDictGet d p.2 = [])
    (hexact : ∀ p ∈ d,
      pyStrip (stripChoumeMarker p.1) ≠ pyStrip (stripChoumeMarker extracted))
    (hbwd : ∀ p ∈ d,
      isSubstr (pyStrip (stripChoumeMarker extracted))
        (pyStrip (stripChoumeMarker p.1)) = false →
      ¬(pyStrip (stripChoumeMarker p.1) ≠ [] ∧
        isSubstr (pyStrip (stripChoumeMarker p.1))
          (pyStrip (stripChoumeMarker extracted)) = true)) :
    matchChoume d extracted =
      match (d.filter (fun p =>
          isSubstr (pyStrip (stripChoumeMarker extracted))
            (pyStrip (stripChoumeMarker p.1)))).getLast? with
      | none => none
      | some p => some (p.2, p.1) := by
  unfold matchChoume
  rw [hkey]
  exact matchChoumeLoop_last d _ hnex d none hexact hbwd hget (fun c n h => by cases h)

/-- Witness for C4 (amended): on the two-entry catalog, the last
containment match (`西梅里`) is chosen. -/
theorem tier3_last_containment_witness :
    matchChoume dictUmeri ['梅', '里'] =
      match (dictUmeri.filter (fun p =>
          isSubstr (pyStrip (stripChoumeMarker ['梅', '里']))
            (pyStrip (stripChoumeMarker p.1)))).getLast? with
      | none => none
      | some p => some (p.2, p.1) :=
  tier3_last_containment_amended dictUmeri ['梅', '里'] (by decide) (by decide) (by decide)
    (by decide) (by decide)

/-! ### Supporting lemmas for the candidate list (C7) -/

theorem mem_dedupKeepFirstGo :
    ∀ (l seen : List Str) (a : Str),
      a ∈ dedupKeepFirstGo seen l ↔ a ∈ l ∧ a ∉ seen := by
  intro l
  induction l with
  | nil => intro seen a; simp [dedupKeepFirstGo]
  | cons x rest ih =>
    intro seen a
    simp only [dedupKeepFirstGo]
    split
    case isTrue hx =>
      rw [ih]
      simp only [List.mem_cons]
      constructor
      · rintro ⟨h1, h2⟩
        exact ⟨Or.inr h1, h2⟩
      · rintro ⟨h1 | h1, h2⟩
        · exact absurd (h1 ▸ hx) h2
        · exact ⟨h1, h2⟩
    case isFalse hx =>
      simp only [List.mem_cons, ih, List.mem_cons]
      constructor
      · rintro (rfl | ⟨h1, h2⟩)
        · exact ⟨Or.inl rfl, hx⟩
        · exact ⟨Or.inr h1, fun hc => h2 (Or.inr hc)⟩
      · rintro ⟨h1 | h1, h2⟩
        · exact Or.inl h1
        · by_cases hax : a = x
          · exact Or.inl hax
          · exact Or.inr ⟨h1, fun hc => hc.elim hax h2⟩

theorem dedupKeepFirstGo_nodup :
    ∀ (l seen : List Str), (dedupKeepFirstGo seen l).Nodup := by
  intro l
  induction l with
  | nil => intro seen; simp [dedupKeepFirstGo]
  | cons x rest ih =>
    intro seen
    simp only [dedupKeepFirstGo]
    split
    · exact ih seen
    · refine List.nodup_cons.mpr ⟨?_, ih (x :: seen)⟩
      rw [mem_dedupKeepFirstGo]
      rintro ⟨_, h2⟩
      exact h2 (List.mem_cons_self x seen)

theorem dedupKeepFirst_nodup (l : List Str) : (dedupKeepFirst l).Nodup :=
  dedupKeepFirstGo_nodup l []

theorem mem_dedupKeepFirst (l : List Str) (a : Str) : a ∈ dedupKeepFirst l ↔ a ∈ l := by
  unfold dedupKeepFirst
  rw [mem_dedupKeepFirstGo]
  simp

/-- C7 (amended): the list returned by `extract_choume_candidates` holds
each distinct generated candidate exactly once — its content is exactly the
rank-order deduplication of the generation sequence, up to permutation —
but its order is the unspecified set-enumeration order, not rank order. -/
theorem candidates_set_content_amended (addr : Str) (out : List Str)
    (h : pySetList (choumeCandidatesRanked addr) out) :
    out.Perm (dedupKeepFirst (choumeCandidatesRanked addr)) := by
  obtain ⟨hnd, hsub, hsup⟩ := h
  rw [List.perm_ext_iff_of_nodup hnd (dedupKeepFirst_nodup _)]
  intro a
  rw [mem_dedupKeepFirst]
  exact ⟨fun ha => hsub a ha, fun ha => hsup a ha⟩

/-- Witness for C7 (amended): the out-of-order enumeration of the
`喜多見9-19-6` candidate set is a permutation of the rank-order
deduplication. -/
theorem candidates_set_content_witness :
    kitamiOutOfOrder.Perm (dedupKeepFirst (choumeCandidatesRanked addrKitami)) :=
  candidates_set_content_amended addrKitami kitamiOutOfOrder (by decide)

/-- C8 (amended): every record that `match_with_choume` retains carries a
block code produced by a successful catalog match on its own extracted
name — unmatched records are never assigned any block; they are skipped
outright (only counted), hence excluded from aggregation, but they are NOT
retained with a null block code. -/
theorem unmatched_skipped_amended (d : List (Str × Str)) (rows : List HistRow)
    (mr : MatchedRec) (h : mr ∈ matchWithChoumeRecords d rows) :
    ∃ r ∈ rows, ∃ nm, extractChoumeName r.address = some nm ∧
      matchChoume d nm = some (mr.choume_code, mr.choume_name) ∧
      mr.original_address = r.address := by
  unfold matchWithChoumeRecords at h
  obtain ⟨r, hr, hp⟩ := List.mem_filterMap.mp h
  refine ⟨r, hr, ?_⟩
  unfold processHistRow at hp
  split at hp
  next => exact absurd hp (by simp)
  next h1 =>
    split at hp
    next => exact absurd hp (by simp)
    next nm hext =>
      split at hp
      next => exact absurd hp (by simp)
      next code name hmatch =>
        split at hp
        next => exact absurd hp (by simp)
        next sy hsy =>
          split at hp
          next => exact absurd hp (by simp)
          next p hpr =>
            simp only [Option.some.injEq] at hp
            subst hp
            exact ⟨nm, hext, hmatch, rfl⟩

/-- Witness for C8 (amended): the matched record for `奥沢1丁目5番` carries
the code of the catalog entry its extracted name matched. -/
theorem unmatched_skipped_witness :
    ∃ r ∈ [histRowMatched], ∃ nm, extractChoumeName r.address = some nm ∧
      matchChoume dictOkuzawa nm =
        some (matchedRecOkuzawa.choume_code, matchedRecOkuzawa.choume_name) ∧
      matchedRecOkuzawa.original_address = r.address :=
  unmatched_skipped_amended dictOkuzawa [histRowMatched] matchedRecOkuzawa (by decide)
